import Mathlib

/-!
Verification of the discovery/scanner core of `ads_forwarder_rs`
(`src/util.rs` and `src/scanner.rs`), as a shallow embedding.

Conventions of the embedding:
* Rust byte buffers (`Vec<u8>`, `&[u8]`) become `List Nat`, each element a
  byte value.
* Rust `&str` / `String` become `List Char`.
* `Ipv4Addr` becomes the `Nat` value of its 32-bit big-endian integer
  (only its identity and bitwise `&&&` matter here).
* A Rust function that can fail with `Result`/parse errors becomes an
  `Option`/explicit-outcome function; a Rust `panic!`/`assert!` abort is a
  distinguished fatal outcome (`none`, or `ScanOutcome.fatal`), never a
  normal value.
-/

/-! ## Constants (src/util.rs lines 30-33) -/

def BECKHOFF_BC_UDP_PORT : Nat := 48847

def BECKHOFF_TCP_PORT : Nat := 48898

def BECKHOFF_UDP_PORT : Nat := 48899

/-! ## Subnet test (src/util.rs `in_same_net`)

Rust: `addr1 & netmask == addr2 & netmask` on `u32` values. -/

def in_same_net (addr1 addr2 netmask : Nat) : Bool :=
  addr1 &&& netmask == addr2 &&& netmask

/-! ## Little-endian packing (the `structure!("<IHHHHHH")` pack in
`Scanner::scan_addr`): `I` is a 32-bit little-endian field, `H` a 16-bit
little-endian field. -/

def u16le (n : Nat) : List Nat := [n % 256, n / 256 % 256]

def u32le (n : Nat) : List Nat :=
  [n % 256, n / 256 % 256, n / 65536 % 256, n / 16777216 % 256]

/-- BC discovery request datagram: `bc_scan_struct.pack(1, 0, 0x21, 3, 100, 4, 10)`
with format `<IHHHHHH` (src/scanner.rs line 98). -/
def bc_msg : List Nat :=
  u32le 1 ++ u16le 0 ++ u16le 0x21 ++ u16le 3 ++ u16le 100 ++ u16le 4 ++ u16le 10

/-! ## Message envelope (src/util.rs `AdsMessage`)

The buffer is a byte list; `length()` reads the 32-bit little-endian field
at offsets 2..6 and adds 6.  `AdsMessage::new` asserts
`length() == buffer.len()`; the `assert!` abort is modelled as `none`. -/

def readU32LE (l : List Nat) (off : Nat) : Nat :=
  l.getD off 0 + 256 * (l.getD (off + 1) 0 + 256 * (l.getD (off + 2) 0 + 256 * l.getD (off + 3) 0))

def adsLength (msg : List Nat) : Nat := 6 + readU32LE msg 2

def adsNew (msg : List Nat) : Option (List Nat) :=
  if adsLength msg = msg.length then some msg else none

def dest_id (msg : List Nat) : List Nat := (msg.drop 6).take 6

def source_id (msg : List Nat) : List Nat := (msg.drop 14).take 6

def patch_dest_id (msg id : List Nat) : List Nat :=
  msg.take 6 ++ id ++ msg.drop 12

def patch_source_id (msg id : List Nat) : List Nat :=
  msg.take 14 ++ id ++ msg.drop 20

/-! ## AmsNetId parsing and formatting (src/util.rs lines 89-109)

Rust `&str` becomes `List Char`.  `u8::from_str` (what `part.parse()`
resolves to) accepts an optional leading plus sign followed by one or more
ASCII decimal digits, and fails on overflow past 255; the step-wise
overflow check of the Rust implementation is equivalent to comparing the
final value with 255 because the accumulated value is monotone in the
digits consumed. -/

def stripPlus (p : List Char) : List Char :=
  match p with
  | '+' :: rest => rest
  | _ => p

def decimalVal (ds : List Char) : Nat :=
  ds.foldl (fun a c => a * 10 + (c.toNat - 48)) 0

def parseByte (p : List Char) : Option Nat :=
  let ds := stripPlus p
  if ds ≠ [] ∧ ds.all Char.isDigit then
    if decimalVal ds ≤ 255 then some (decimalVal ds) else none
  else none

/-- Spec-side description of a rejected component: empty, non-numeric, or
value above 255 (after the optional sign). -/
def badByteComponent (p : List Char) : Bool :=
  stripPlus p == [] || !(stripPlus p).all Char.isDigit
    || decide (255 < decimalVal (stripPlus p))

/-- Loop body of `AmsNetId::from_str`: `arr` starts as `[1; 6]`, and for the
`i`-th dot-separated part, `arr.get_mut(i)` (which exists exactly when
`i < 6`) is paired with `part.parse()`; any failure aborts with the
`FormatError` (modelled `none`). -/
def fromStrAux : List (List Char) → Nat → List Nat → Option (List Nat)
  | [], _, arr => some arr
  | p :: ps, i, arr =>
    if i < 6 then
      match parseByte p with
      | some b => fromStrAux ps (i + 1) (arr.set i b)
      | none => none
    else none

def amsNetId_from_str (s : List Char) : Option (List Nat) :=
  fromStrAux (s.splitOn '.') 0 [1, 1, 1, 1, 1, 1]

/-- Decimal rendering of a byte value (what `{}` does to a `u8`), valid for
values below 1000 and hence for all bytes. -/
def byteStr (n : Nat) : List Char :=
  if n < 10 then [Char.ofNat (48 + n)]
  else if n < 100 then [Char.ofNat (48 + n / 10), Char.ofNat (48 + n % 10)]
  else [Char.ofNat (48 + n / 100), Char.ofNat (48 + n / 10 % 10), Char.ofNat (48 + n % 10)]

def joinDot (ps : List (List Char)) : List Char :=
  List.intercalate ['.'] ps

/-- Display for `AmsNetId`: `self.0.iter().format(".")`, decimal bytes
joined by dots. -/
def displayNetId (arr : List Nat) : List Char :=
  joinDot (arr.map byteStr)

/-! ## Claims C7, C8, C3 -/

/-- Claim C7: for all 32-bit values `a`, `b`, `mask`, `in_same_net a b mask`
is true iff `a &&& mask = b &&& mask`; for the all-ones mask it is true iff
`a = b`; for mask `0` it is always true. -/
theorem in_same_net_spec (a b m : Nat) (ha : a < 2 ^ 32) (hb : b < 2 ^ 32) :
    (in_same_net a b m = true ↔ a &&& m = b &&& m)
    ∧ (in_same_net a b (2 ^ 32 - 1) = true ↔ a = b)
    ∧ in_same_net a b 0 = true := by
  refine ⟨by simp [in_same_net], ?_, by simp [in_same_net]⟩
  simp only [in_same_net, beq_iff_eq]
  constructor
  · intro h
    apply Nat.eq_of_testBit_eq
    intro i
    by_cases hi : i < 32
    · have h2 : Nat.testBit (2 ^ 32 - 1) i = true := by
        rw [Nat.testBit_two_pow_sub_one]
        simpa using hi
      have h3 := congrArg (fun x => Nat.testBit x i) h
      simp only [Nat.testBit_land, h2, Bool.and_true] at h3
      exact h3
    · rw [Nat.testBit_eq_false_of_lt (lt_of_lt_of_le ha (Nat.pow_le_pow_right (by norm_num) (le_of_not_lt hi))),
        Nat.testBit_eq_false_of_lt (lt_of_lt_of_le hb (Nat.pow_le_pow_right (by norm_num) (le_of_not_lt hi)))]
  · intro h; rw [h]

/-- Witness for C7 at concrete inputs. -/
theorem in_same_net_spec_witness :
    (192 : Nat) < 2 ^ 32 ∧ (193 : Nat) < 2 ^ 32
    ∧ ((in_same_net 192 193 4294967295 = true ↔ (192 : Nat) = 193)
       ∧ in_same_net 192 193 0 = true) := by
  refine ⟨by norm_num, by norm_num, ?_, ?_⟩
  · exact (in_same_net_spec 192 193 (2 ^ 32 - 1) (by norm_num) (by norm_num)).2.1
  · exact (in_same_net_spec 192 193 0 (by norm_num) (by norm_num)).2.2

/-- Claim C8: the legacy discovery request datagram is exactly the 16-byte
little-endian encoding of `[1, 0, 0x21, 3, 100, 4, 10]` (one 32-bit field,
six 16-bit fields), and the legacy discovery port is 48847. -/
theorem bc_msg_spec :
    bc_msg = [1, 0, 0, 0, 0, 0, 0x21, 0, 3, 0, 100, 0, 4, 0, 10, 0]
    ∧ BECKHOFF_BC_UDP_PORT = 48847 := by
  constructor <;> rfl

/-- Claim C3: for buffers of length at least 6, envelope construction
succeeds exactly when the little-endian length field at offsets 2..6 plus 6
equals the buffer length; on mismatch it is rejected (the `assert!` fires,
modelled by `none`), never yielding an envelope. -/
theorem adsNew_spec (msg : List Nat) (_hlen : 6 ≤ msg.length) :
    ((adsNew msg).isSome ↔ readU32LE msg 2 + 6 = msg.length)
    ∧ (readU32LE msg 2 + 6 ≠ msg.length → adsNew msg = none)
    ∧ (∀ m, adsNew msg = some m → m = msg) := by
  refine ⟨?_, ?_, ?_⟩
  · unfold adsNew adsLength
    split <;> rename_i h
    · simp; omega
    · simp; omega
  · intro hne
    unfold adsNew adsLength
    split <;> rename_i h
    · omega
    · rfl
  · intro m hm
    unfold adsNew at hm
    split at hm
    · exact (Option.some_inj.mp hm).symm
    · exact absurd hm (by simp)

/-! ## Splice helper lemmas for the field-patch operations (claim C4)

Both `patch_dest_id` and `patch_source_id` are instances of splicing a
6-byte block into the buffer at a fixed offset. -/

lemma splice_getElem?_left {α : Type} (msg id : List α) (a i : Nat)
    (ha : a ≤ msg.length) (hi : i < a) :
    (msg.take a ++ id ++ msg.drop (a + id.length))[i]? = msg[i]? := by
  rw [List.append_assoc,
    List.getElem?_append_left (by rw [List.length_take_of_le ha]; exact hi),
    List.getElem?_take]
  simp [hi]

lemma splice_getElem?_mid {α : Type} (msg id : List α) (a k : Nat)
    (ha : a ≤ msg.length) (hk : k < id.length) :
    (msg.take a ++ id ++ msg.drop (a + id.length))[a + k]? = id[k]? := by
  rw [List.append_assoc,
    List.getElem?_append_right (by rw [List.length_take_of_le ha]; omega),
    List.length_take_of_le ha]
  rw [List.getElem?_append_left (by omega : a + k - a < id.length)]
  congr 1
  omega

lemma splice_getElem?_right {α : Type} (msg id : List α) (a i : Nat)
    (ha : a ≤ msg.length) (hi : a + id.length ≤ i) :
    (msg.take a ++ id ++ msg.drop (a + id.length))[i]? = msg[i]? := by
  have hlen : (msg.take a ++ id).length = a + id.length := by
    rw [List.length_append, List.length_take_of_le ha]
  rw [List.getElem?_append_right (by omega), hlen, List.getElem?_drop]
  congr 1
  omega

lemma splice_length {α : Type} (msg id : List α) (a : Nat)
    (ha : a + id.length ≤ msg.length) :
    (msg.take a ++ id ++ msg.drop (a + id.length)).length = msg.length := by
  simp [List.length_take, List.length_drop]
  omega

lemma splice_drop {α : Type} (msg id : List α) (a c : Nat)
    (ha : a ≤ msg.length) (hc : a + id.length ≤ c) :
    (msg.take a ++ id ++ msg.drop (a + id.length)).drop c = msg.drop c := by
  have hlen : (msg.take a ++ id).length = a + id.length := by
    rw [List.length_append, List.length_take_of_le ha]
  have h1 : c = (msg.take a ++ id).length + (c - (a + id.length)) := by omega
  rw [List.append_assoc, ← List.append_assoc, h1, List.drop_append, List.drop_drop]
  congr 1
  omega

lemma splice_read_back {α : Type} (msg id : List α) (a : Nat)
    (ha : a ≤ msg.length) :
    (((msg.take a ++ id ++ msg.drop (a + id.length)).drop a).take id.length) = id := by
  have h1 : ((msg.take a ++ id ++ msg.drop (a + id.length)).drop a)
      = id ++ msg.drop (a + id.length) := by
    rw [List.append_assoc]
    have h2 := List.drop_left (msg.take a) (id ++ msg.drop (a + id.length))
    rwa [List.length_take_of_le ha] at h2
  rw [h1, List.take_left]

/-- Claim C4: for a buffer of length at least 20 and a 6-byte identifier,
`patch_dest_id` overwrites exactly bytes 6..12 with the identifier and
leaves every other byte (length field, source field, payload) unchanged,
after which `dest_id` reads back exactly the identifier and `source_id` is
unchanged; symmetrically `patch_source_id` overwrites exactly bytes 14..20,
after which `source_id` reads back the identifier and `dest_id` is
unchanged. -/
theorem patch_id_spec (msg id : List Nat) (hm : 20 ≤ msg.length) (hid : id.length = 6) :
    ((patch_dest_id msg id).length = msg.length
      ∧ (∀ k, k < 6 → (patch_dest_id msg id)[6 + k]? = id[k]?)
      ∧ (∀ i, i < 6 ∨ 12 ≤ i → (patch_dest_id msg id)[i]? = msg[i]?)
      ∧ dest_id (patch_dest_id msg id) = id
      ∧ source_id (patch_dest_id msg id) = source_id msg)
    ∧ ((patch_source_id msg id).length = msg.length
      ∧ (∀ k, k < 6 → (patch_source_id msg id)[14 + k]? = id[k]?)
      ∧ (∀ i, i < 14 ∨ 20 ≤ i → (patch_source_id msg id)[i]? = msg[i]?)
      ∧ source_id (patch_source_id msg id) = id
      ∧ dest_id (patch_source_id msg id) = dest_id msg) := by
  have hd : patch_dest_id msg id = msg.take 6 ++ id ++ msg.drop (6 + id.length) := by
    rw [hid]; rfl
  have hs : patch_source_id msg id = msg.take 14 ++ id ++ msg.drop (14 + id.length) := by
    rw [hid]; rfl
  refine ⟨⟨?_, ?_, ?_, ?_, ?_⟩, ?_, ?_, ?_, ?_, ?_⟩
  · rw [hd]; exact splice_length msg id 6 (by omega)
  · intro k hk
    rw [hd]; exact splice_getElem?_mid msg id 6 k (by omega) (by omega)
  · intro i hi
    rw [hd]
    rcases hi with hi | hi
    · exact splice_getElem?_left msg id 6 i (by omega) hi
    · exact splice_getElem?_right msg id 6 i (by omega) (by omega)
  · have h := splice_read_back msg id 6 (by omega)
    rw [hid] at h
    rw [hd]
    unfold dest_id
    rw [hid]
    exact h
  · rw [hd]
    unfold source_id
    rw [splice_drop msg id 6 14 (by omega) (by omega)]
  · rw [hs]; exact splice_length msg id 14 (by omega)
  · intro k hk
    rw [hs]; exact splice_getElem?_mid msg id 14 k (by omega) (by omega)
  · intro i hi
    rw [hs]
    rcases hi with hi | hi
    · exact splice_getElem?_left msg id 14 i (by omega) hi
    · exact splice_getElem?_right msg id 14 i (by omega) (by omega)
  · have h := splice_read_back msg id 14 (by omega)
    rw [hid] at h
    rw [hs]
    unfold source_id
    rw [hid]
    exact h
  · rw [hs]
    unfold dest_id
    apply List.ext_getElem?
    intro n
    by_cases hn : n < 6
    · rw [List.getElem?_take, List.getElem?_take]
      simp only [hn, if_true]
      rw [List.getElem?_drop, List.getElem?_drop]
      exact splice_getElem?_left msg id 14 (6 + n) (by omega) (by omega)
    · rw [List.getElem?_take, List.getElem?_take]
      simp [hn]

/-- Witness for C4 at a concrete 20-byte buffer and identifier. -/
theorem patch_id_spec_witness :
    (20 ≤ (List.replicate 20 (0 : Nat)).length ∧ ([9, 8, 7, 6, 5, 4] : List Nat).length = 6)
    ∧ dest_id (patch_dest_id (List.replicate 20 0) [9, 8, 7, 6, 5, 4]) = [9, 8, 7, 6, 5, 4] := by
  refine ⟨⟨by decide, by decide⟩, ?_⟩
  exact (patch_id_spec (List.replicate 20 0) [9, 8, 7, 6, 5, 4] (by decide) (by decide)).1.2.2.2.1

/-- Witness for C3: a 6-byte buffer with length field 0 constructs, and a
mismatched length field is rejected. -/
theorem adsNew_spec_witness :
    (6 ≤ ([0, 0, 0, 0, 0, 0] : List Nat).length)
    ∧ ((adsNew [0, 0, 0, 0, 0, 0]).isSome ↔ readU32LE [0, 0, 0, 0, 0, 0] 2 + 6 = ([0, 0, 0, 0, 0, 0] : List Nat).length) := by
  exact ⟨by decide, (adsNew_spec [0, 0, 0, 0, 0, 0] (by decide)).1⟩

/-! ## Claim C5: identifier parse success and failure characterisation -/

lemma parseByte_eq_none_iff (p : List Char) :
    parseByte p = none ↔ badByteComponent p = true := by
  by_cases h1 : stripPlus p = [] <;>
    by_cases h2 : (stripPlus p).all Char.isDigit <;>
      by_cases h3 : decimalVal (stripPlus p) ≤ 255 <;>
        simp [parseByte, badByteComponent, h1, h2, h3] <;> omega

lemma fromStrAux_isSome (ps : List (List Char)) :
    ∀ i arr, i ≤ 6 →
      ((fromStrAux ps i arr).isSome ↔
        i + ps.length ≤ 6 ∧ ∀ p ∈ ps, (parseByte p).isSome) := by
  induction ps with
  | nil =>
    intro i arr hi
    simp [fromStrAux]
    omega
  | cons p ps ih =>
    intro i arr hi
    unfold fromStrAux
    by_cases hlt : i < 6
    · simp only [hlt, if_true]
      cases hp : parseByte p with
      | none =>
        simp only [Option.isSome_none, Bool.false_eq_true, false_iff, not_and]
        intro _ hall
        have h := hall p (List.mem_cons_self p ps)
        rw [hp] at h
        simp at h
      | some b =>
        rw [ih (i + 1) (arr.set i b) (by omega)]
        simp only [List.forall_mem_cons, hp, Option.isSome_some, true_and, List.length_cons]
        constructor
        · rintro ⟨h1, h2⟩
          exact ⟨by omega, h2⟩
        · rintro ⟨h1, h2⟩
          exact ⟨by omega, h2⟩
    · simp only [hlt, if_false]
      simp only [Option.isSome_none, Bool.false_eq_true, false_iff, not_and]
      intro h
      exfalso
      simp only [List.length_cons] at h
      omega

lemma fromStrAux_eq_some (ps : List (List Char)) :
    ∀ i arr, arr.length = 6 → i + ps.length ≤ 6 →
      (∀ p ∈ ps, (parseByte p).isSome) →
      fromStrAux ps i arr
        = some (arr.take i ++ ps.map (fun p => (parseByte p).getD 0)
            ++ arr.drop (i + ps.length)) := by
  induction ps with
  | nil =>
    intro i arr _ _ _
    simp [fromStrAux]
  | cons p ps ih =>
    intro i arr hlen hle hall
    have hi : i < 6 := by
      simp only [List.length_cons] at hle
      omega
    obtain ⟨b, hb⟩ := Option.isSome_iff_exists.mp (hall p (List.mem_cons_self p ps))
    unfold fromStrAux
    simp only [hi, if_true, hb]
    rw [ih (i + 1) (arr.set i b) (by simp [hlen])
        (by simp only [List.length_cons] at hle; omega)
        (fun q hq => hall q (List.mem_cons_of_mem p hq))]
    have htake : (arr.set i b).take (i + 1) = arr.take i ++ [b] := by
      rw [List.set_eq_take_cons_drop b (by omega : i < arr.length)]
      have h1 : i + 1 = (arr.take i).length + 1 := by
        rw [List.length_take_of_le (by omega)]
      rw [h1, List.take_append]
      rfl
    have hdrop : (arr.set i b).drop (i + 1 + ps.length) = arr.drop (i + 1 + ps.length) := by
      rw [List.drop_set, if_pos (by omega)]
    rw [htake, hdrop]
    have harith : i + (p :: ps).length = i + 1 + ps.length := by
      simp only [List.length_cons]
      omega
    rw [harith]
    simp [List.append_assoc, hb]

/-- Claim C5: parsing splits on dots, fills a 6-byte array left-to-right
with unfilled trailing bytes defaulting to 1, succeeds exactly when there
are at most 6 components all parsing as bytes, and fails with the
`FormatError` (modelled `none`) exactly when some component is empty,
non-numeric, or above 255, or more than 6 components are given. -/
theorem amsNetId_from_str_spec (s : List Char) :
    ((amsNetId_from_str s).isSome ↔
      (s.splitOn '.').length ≤ 6 ∧ ∀ p ∈ s.splitOn '.', (parseByte p).isSome)
    ∧ (∀ arr, amsNetId_from_str s = some arr →
        arr = (s.splitOn '.').map (fun p => (parseByte p).getD 0)
          ++ List.replicate (6 - (s.splitOn '.').length) 1)
    ∧ (amsNetId_from_str s = none ↔
      6 < (s.splitOn '.').length ∨ ∃ p ∈ s.splitOn '.', badByteComponent p = true) := by
  have hbase : ([1, 1, 1, 1, 1, 1] : List Nat).length = 6 := by decide
  have hiff := fromStrAux_isSome (s.splitOn '.') 0 [1, 1, 1, 1, 1, 1] (by omega)
  refine ⟨?_, ?_, ?_⟩
  · unfold amsNetId_from_str
    rw [hiff, Nat.zero_add]
  · intro arr harr
    unfold amsNetId_from_str at harr
    have hsome : (fromStrAux (s.splitOn '.') 0 [1, 1, 1, 1, 1, 1]).isSome := by
      rw [harr]
      rfl
    rw [hiff] at hsome
    rw [fromStrAux_eq_some (s.splitOn '.') 0 [1, 1, 1, 1, 1, 1] hbase
        (by omega) hsome.2] at harr
    have hrep : List.drop (0 + (s.splitOn '.').length) [1, 1, 1, 1, 1, 1]
        = List.replicate (6 - (s.splitOn '.').length) (1 : Nat) := by
      have h6 : (s.splitOn '.').length ≤ 6 := by
        have := hsome.1
        omega
      have : ∀ n, n ≤ 6 → List.drop n [1, 1, 1, 1, 1, 1]
          = List.replicate (6 - n) (1 : Nat) := by decide
      rw [Nat.zero_add]
      exact this _ h6
    rw [hrep] at harr
    simpa using harr.symm
  · unfold amsNetId_from_str
    rw [← Option.not_isSome_iff_eq_none, hiff]
    push_neg
    constructor
    · intro h
      by_cases h6 : (s.splitOn '.').length ≤ 6
      · obtain ⟨p, hp, hnone⟩ := h (by omega)
        exact Or.inr ⟨p, hp, (parseByte_eq_none_iff p).mp (Option.not_isSome_iff_eq_none.mp hnone)⟩
      · exact Or.inl (by omega)
    · rintro (h | ⟨p, hp, hbad⟩)
      · intro h6
        exfalso
        omega
      · intro _
        exact ⟨p, hp, Option.not_isSome_iff_eq_none.mpr ((parseByte_eq_none_iff p).mpr hbad)⟩

/-- Witness for C5 on the concrete string 5.1.2.3.4.5. -/
theorem amsNetId_from_str_spec_witness :
    (amsNetId_from_str ['5', '.', '1', '.', '2', '.', '3', '.', '4', '.', '5']).isSome ↔
      ((['5', '.', '1', '.', '2', '.', '3', '.', '4', '.', '5'] : List Char).splitOn '.').length ≤ 6
      ∧ ∀ p ∈ (['5', '.', '1', '.', '2', '.', '3', '.', '4', '.', '5'] : List Char).splitOn '.',
          (parseByte p).isSome :=
  (amsNetId_from_str_spec ['5', '.', '1', '.', '2', '.', '3', '.', '4', '.', '5']).1

/-! ## Claim C6: parse/format round trip -/

set_option maxRecDepth 10000 in
lemma parseByte_byteStr : ∀ v, v < 256 → parseByte (byteStr v) = some v := by decide

set_option maxRecDepth 10000 in
lemma dot_notin_byteStr : ∀ v, v < 256 → ('.' ∈ byteStr v → False) := by decide

lemma drop_ones : ∀ n, n ≤ 6 → List.drop n [1, 1, 1, 1, 1, 1] = List.replicate (6 - n) (1 : Nat) := by
  decide

/-- Claim C6: for 1 to 6 dot-separated decimal byte values, parsing the
joined string yields the identifier consisting of those values padded with
trailing 1s to 6 bytes, and formatting that identifier yields the dot-join
of the original decimal values followed by explicit 1 components. -/
theorem parse_format_round_trip (vs : List Nat) (hne : vs ≠ []) (h6 : vs.length ≤ 6)
    (hb : ∀ v ∈ vs, v ≤ 255) :
    amsNetId_from_str (joinDot (vs.map byteStr))
        = some (vs ++ List.replicate (6 - vs.length) 1)
    ∧ displayNetId (vs ++ List.replicate (6 - vs.length) 1)
        = joinDot (vs.map byteStr ++ List.replicate (6 - vs.length) ['1']) := by
  constructor
  · have hsplit : (joinDot (vs.map byteStr)).splitOn '.' = vs.map byteStr := by
      unfold joinDot
      apply List.splitOn_intercalate
      · intro l hl
        obtain ⟨v, hv, rfl⟩ := List.mem_map.mp hl
        exact fun hdot => dot_notin_byteStr v (by have := hb v hv; omega) hdot
      · simp [hne]
    unfold amsNetId_from_str
    rw [hsplit]
    rw [fromStrAux_eq_some (vs.map byteStr) 0 [1, 1, 1, 1, 1, 1] (by decide)
        (by simp; omega)
        (by
          intro p hp
          obtain ⟨v, hv, rfl⟩ := List.mem_map.mp hp
          rw [parseByte_byteStr v (by have := hb v hv; omega)]
          rfl)]
    congr 1
    rw [List.take_zero, List.nil_append, List.length_map, Nat.zero_add,
      drop_ones vs.length h6, List.map_map]
    congr 1
    have hmap : vs.map ((fun p => (parseByte p).getD 0) ∘ byteStr) = vs.map id := by
      apply List.map_congr_left
      intro v hv
      simp only [Function.comp_apply, parseByte_byteStr v (by have := hb v hv; omega),
        Option.getD_some, id]
    rw [hmap, List.map_id]
  · unfold displayNetId joinDot
    rw [List.map_append, List.map_replicate]
    rfl

/-- Witness for C6 on the concrete value list 1.2.3. -/
theorem parse_format_round_trip_witness :
    (([1, 2, 3] : List Nat) ≠ [] ∧ ([1, 2, 3] : List Nat).length ≤ 6
      ∧ ∀ v ∈ ([1, 2, 3] : List Nat), v ≤ 255)
    ∧ (amsNetId_from_str (joinDot (([1, 2, 3] : List Nat).map byteStr))
        = some ([1, 2, 3] ++ List.replicate (6 - ([1, 2, 3] : List Nat).length) 1)
      ∧ displayNetId ([1, 2, 3] ++ List.replicate (6 - ([1, 2, 3] : List Nat).length) 1)
        = joinDot (([1, 2, 3] : List Nat).map byteStr
            ++ List.replicate (6 - ([1, 2, 3] : List Nat).length) ['1'])) :=
  ⟨⟨by decide, by decide, by decide⟩,
    parse_format_round_trip [1, 2, 3] (by decide) (by decide) (by decide)⟩

/-! ## Scanner (src/scanner.rs)

The OS and network are abstracted into explicit data:
* `Scanner.if_addrs` is the interface directory `name -> (address, mask)`
  (the `HashMap` is modelled as an association list; its iteration order is
  one fixed order of the map).
* `NetEnv` records, for one `scan_addr` invocation, whether each socket
  operation succeeds and which datagrams `recv_from` yields before the
  receive timeout ends the loop.
* `UdpMessage::parse` (in a module outside the given sources) is abstracted
  as an arbitrary function `cxParse` returning the decoded NetID on
  success; the claims treated here do not depend on its definition.
* `ScanOutcome.ioerr` models an `Err(Box<Error>)` return; `ScanOutcome.fatal`
  models an unwinding Rust abort. -/

structure Beckhoff where
  if_addr : Nat
  is_bc : Bool
  bh_addr : Nat
  netid : List Nat

inductive ScanOutcome (α : Type) where
  | ok : α → ScanOutcome α
  | ioerr : ScanOutcome α
  | fatal : ScanOutcome α

structure Reply where
  addr : Nat
  port : Nat
  data : List Nat

structure NetEnv where
  bind_ok : Bool
  broadcast_ok : Bool
  timeout_ok : Bool
  send_bc_ok : Bool
  send_cx_ok : Bool
  replies : List Reply

inductive Scan where
  | everything : Scan
  | interface : List Char → Scan
  | address : Nat → Scan

structure Scanner where
  if_addrs : List (List Char × Nat × Nat)

def ifPairs (sc : Scanner) : List (Nat × Nat) := sc.if_addrs.map (fun p => p.2)

def if_exists (sc : Scanner) (name : List Char) : Bool :=
  (sc.if_addrs.find? (fun p => p.1 == name)).isSome

/-- Loop of `Scanner::find_if_addr`: first interface whose subnet contains
the device address; falling off the loop end is the `panic!`, modelled as
`none`. -/
def find_if_addr : List (Nat × Nat) → Nat → Option Nat
  | [], _ => none
  | (ifa, mask) :: rest, bh =>
    if in_same_net bh ifa mask then some ifa else find_if_addr rest bh

/-- Receive loop body of `scan_addr`: a datagram from the BC discovery port
is decoded against `<I6x6S6x20s` (exactly 42 bytes, NetID at offsets
10..16), any other datagram is offered to `UdpMessage::parse`; decode
failures are silently ignored, and a device record is built with
`find_if_addr` (whose `panic!` is the fatal outcome). -/
def processReplies (sc : Scanner) (cxParse : List Nat → Option (List Nat)) :
    List Reply → ScanOutcome (List Beckhoff)
  | [] => .ok []
  | r :: rest =>
    let step : ScanOutcome (List Beckhoff) :=
      if r.port = BECKHOFF_BC_UDP_PORT then
        if r.data.length = 42 then
          match find_if_addr (ifPairs sc) r.addr with
          | some ifa => .ok [⟨ifa, true, r.addr, (r.data.drop 10).take 6⟩]
          | none => .fatal
        else .ok []
      else
        match cxParse r.data with
        | some netid =>
          match find_if_addr (ifPairs sc) r.addr with
          | some ifa => .ok [⟨ifa, false, r.addr, netid⟩]
          | none => .fatal
        | none => .ok []
    match step with
    | .ok devs =>
      match processReplies sc cxParse rest with
      | .ok more => .ok (devs ++ more)
      | .ioerr => .ioerr
      | .fatal => .fatal
    | .ioerr => .ioerr
    | .fatal => .fatal

/-- Model of `Scanner::scan_addr`: each fallible socket operation is an
early `?` return; with `single_reply` the loop breaks after the first
datagram. -/
def scanAddr (sc : Scanner) (cxParse : List Nat → Option (List Nat))
    (env : NetEnv) (single_reply : Bool) : ScanOutcome (List Beckhoff) :=
  if !env.bind_ok then .ioerr
  else if !env.broadcast_ok then .ioerr
  else if !env.timeout_ok then .ioerr
  else if !env.send_bc_ok then .ioerr
  else if !env.send_cx_ok then .ioerr
  else processReplies sc cxParse (if single_reply then env.replies.take 1 else env.replies)

/-- The `Scan::Everything` arm: one `scan_addr` per interface, results
concatenated, any error propagated by `?`. -/
def scanEverything (sc : Scanner) (cxParse : List Nat → Option (List Nat))
    (envs : Nat → NetEnv) : Nat → List (List Char × Nat × Nat) → ScanOutcome (List Beckhoff)
  | _, [] => .ok []
  | i, _ :: rest =>
    match scanAddr sc cxParse (envs i) false with
    | .ok v =>
      match scanEverything sc cxParse envs (i + 1) rest with
      | .ok all => .ok (v ++ all)
      | .ioerr => .ioerr
      | .fatal => .fatal
    | .ioerr => .ioerr
    | .fatal => .fatal

/-- Model of `Scanner::scan_inner`.  The `Scan::Interface` arm indexes the
interface map directly (`self.if_addrs[if_name]`), which aborts when the
key is absent. -/
def scanInner (sc : Scanner) (cxParse : List Nat → Option (List Nat))
    (envs : Nat → NetEnv) : Scan → ScanOutcome (List Beckhoff)
  | .address _ => scanAddr sc cxParse (envs 0) true
  | .interface name =>
    match sc.if_addrs.find? (fun p => p.1 == name) with
    | some _ => scanAddr sc cxParse (envs 0) false
    | none => .fatal
  | .everything => scanEverything sc cxParse envs 0 sc.if_addrs

/-- Model of the public `Scanner::scan`: an `Err` from `scan_inner` is
logged and replaced by the empty vector; an abort still aborts (`none`). -/
def scan (sc : Scanner) (cxParse : List Nat → Option (List Nat))
    (envs : Nat → NetEnv) (what : Scan) : Option (List Beckhoff) :=
  match scanInner sc cxParse envs what with
  | .ok v => some v
  | .ioerr => some []
  | .fatal => none

/-- Claim C1: `scan` never propagates an error to its caller: when
`scan_inner` fails with an I/O error the error is swallowed and the empty
device list is returned, and on success the collected device list is
returned unchanged. -/
theorem scan_never_propagates (sc : Scanner) (cxParse : List Nat → Option (List Nat))
    (envs : Nat → NetEnv) (what : Scan) :
    (scanInner sc cxParse envs what = .ioerr → scan sc cxParse envs what = some [])
    ∧ (∀ v, scanInner sc cxParse envs what = .ok v → scan sc cxParse envs what = some v) := by
  constructor
  · intro h
    unfold scan
    rw [h]
  · intro v h
    unfold scan
    rw [h]

/-- Witness for C1: a bind failure on a single-address scan yields the
empty list from `scan`. -/
theorem scan_never_propagates_witness :
    scanInner ⟨[]⟩ (fun _ => none) (fun _ => ⟨false, true, true, true, true, []⟩)
        (Scan.address 0) = ScanOutcome.ioerr
    ∧ scan ⟨[]⟩ (fun _ => none) (fun _ => ⟨false, true, true, true, true, []⟩)
        (Scan.address 0) = some [] := by
  refine ⟨rfl, ?_⟩
  exact (scan_never_propagates ⟨[]⟩ (fun _ => none)
    (fun _ => ⟨false, true, true, true, true, []⟩) (Scan.address 0)).1 rfl

/-- Claim C2: `find_if_addr` returns the first interface address of the
directory whose masked value equals the device address masked with the same
mask; when no entry matches it does not return a value (the `panic!`,
modelled `none`), and a scan invocation processing a decoded reply in that
state aborts fatally. -/
theorem find_if_addr_spec (ifs : List (Nat × Nat)) (bh : Nat) :
    (find_if_addr ifs bh
      = Option.map Prod.fst (ifs.find? (fun p => bh &&& p.2 == p.1 &&& p.2)))
    ∧ (find_if_addr ifs bh = none ↔ ∀ p ∈ ifs, ¬(bh &&& p.2 = p.1 &&& p.2))
    ∧ (∀ (sc : Scanner) (cxParse : List Nat → Option (List Nat)) (r : Reply)
        (rest : List Reply),
        r.port = BECKHOFF_BC_UDP_PORT → r.data.length = 42 →
        find_if_addr (ifPairs sc) r.addr = none →
        processReplies sc cxParse (r :: rest) = ScanOutcome.fatal) := by
  have hmain : find_if_addr ifs bh
      = Option.map Prod.fst (ifs.find? (fun p => bh &&& p.2 == p.1 &&& p.2)) := by
    induction ifs with
    | nil => rfl
    | cons p rest ih =>
      obtain ⟨ifa, mask⟩ := p
      unfold find_if_addr
      rw [List.find?_cons]
      cases h : (bh &&& mask == ifa &&& mask) with
      | true => simp [in_same_net, h]
      | false => simpa [in_same_net, h] using ih
  refine ⟨hmain, ?_, ?_⟩
  · rw [hmain]
    rw [Option.map_eq_none']
    simp only [List.find?_eq_none, beq_iff_eq]
  · intro sc cxParse r rest hport hlen hnone
    unfold processReplies
    simp only [hport, if_true, hlen, if_pos rfl, hnone]

/-- Witness for C2: a non-matching directory yields `none`, and processing
a 42-byte BC reply in that state is fatal. -/
theorem find_if_addr_spec_witness :
    (find_if_addr [(10, 255)] 3
      = Option.map Prod.fst (([(10, 255)] : List (Nat × Nat)).find?
          (fun p => 3 &&& p.2 == p.1 &&& p.2)))
    ∧ processReplies ⟨[(['e'], 10, 255)]⟩ (fun _ => none)
        [⟨3, 48847, List.replicate 42 0⟩] = ScanOutcome.fatal := by
  constructor
  · exact (find_if_addr_spec [(10, 255)] 3).1
  · exact (find_if_addr_spec [] 3).2.2 ⟨[(['e'], 10, 255)]⟩ (fun _ => none)
      ⟨3, 48847, List.replicate 42 0⟩ [] (by decide) (by decide) (by decide)

/-- Claim C10: scanning a named interface that is not in the interface
directory does not return an empty list or an error value: the direct map
index aborts (fatal), and `scan` does not return; when the interface does
exist the lookup cannot fail and the scan proceeds as a broadcast
`scan_addr`. -/
theorem scan_unknown_interface_fatal (sc : Scanner) (cxParse : List Nat → Option (List Nat))
    (envs : Nat → NetEnv) (name : List Char) :
    (if_exists sc name = false →
      scanInner sc cxParse envs (Scan.interface name) = ScanOutcome.fatal
      ∧ scan sc cxParse envs (Scan.interface name) = none)
    ∧ (if_exists sc name = true →
      scanInner sc cxParse envs (Scan.interface name) = scanAddr sc cxParse (envs 0) false) := by
  constructor
  · intro h
    unfold if_exists at h
    have hnone : sc.if_addrs.find? (fun p => p.1 == name) = none :=
      Option.not_isSome_iff_eq_none.mp (by simp [h])
    have hinner : scanInner sc cxParse envs (Scan.interface name) = ScanOutcome.fatal := by
      simp only [scanInner, hnone]
    refine ⟨hinner, ?_⟩
    unfold scan
    rw [hinner]
  · intro h
    unfold if_exists at h
    obtain ⟨p, hp⟩ := Option.isSome_iff_exists.mp h
    simp only [scanInner, hp]

/-- Witness for C10: the empty directory does not contain interface e. -/
theorem scan_unknown_interface_fatal_witness :
    if_exists ⟨[]⟩ ['e'] = false
    ∧ scan ⟨[]⟩ (fun _ => none) (fun _ => ⟨true, true, true, true, true, []⟩)
        (Scan.interface ['e']) = none := by
  refine ⟨rfl, ?_⟩
  exact ((scan_unknown_interface_fatal ⟨[]⟩ (fun _ => none)
    (fun _ => ⟨true, true, true, true, true, []⟩) ['e']).1 rfl).2

/-! ## Hex dump (src/util.rs `hexdump`, `printable`)

Each loop iteration prints one line for up to 16 bytes:
`{:#06x}: ` (offset, `0x` plus at least four zero-padded lowercase hex
digits), the bytes as two-digit hex joined by single spaces, three blanks
for every missing byte of a short final line, then ` | ` and the ASCII
column (bytes in 32..=127 as themselves, the rest as a dot).  The closing
`println!()` that emits one empty separator line after the loop is not part
of the per-line format and is not modelled. -/

def printable (ch : Nat) : Char :=
  if 32 ≤ ch ∧ ch ≤ 127 then Char.ofNat ch else '.'

def hexDigitCh (n : Nat) : Char :=
  if n < 10 then Char.ofNat (48 + n) else Char.ofNat (87 + n)

/-- Two-digit lowercase hex of a byte (`{:02x}` for values below 256). -/
def hex2 (n : Nat) : List Char := [hexDigitCh (n / 16), hexDigitCh (n % 16)]

/-- Lowercase hex digits of `n`, no padding (`{:x}`). -/
def hexStr (n : Nat) : List Char :=
  if n < 16 then [hexDigitCh n]
  else hexStr (n / 16) ++ [hexDigitCh (n % 16)]
termination_by n
decreasing_by exact Nat.div_lt_self (by omega) (by omega)

/-- Offset column `{:#06x}`: `0x`, then the hex digits zero-padded to at
least four. -/
def offsetStr (n : Nat) : List Char :=
  '0' :: 'x' :: (List.replicate (4 - (hexStr n).length) '0' ++ hexStr n)

/-- Rendering of `iter().format(" ")`: the pieces joined by single spaces. -/
def joinSpace : List (List Char) → List Char
  | [] => []
  | [x] => x
  | x :: y :: xs => x ++ [' '] ++ joinSpace (y :: xs)

def mkLine (addr : Nat) (line : List Nat) : List Char :=
  offsetStr addr ++ [':', ' ']
    ++ joinSpace (line.map hex2)
    ++ List.replicate (3 * (16 - line.length)) ' '
    ++ [' ', '|', ' ']
    ++ line.map printable

def hexdumpLines (addr : Nat) (data : List Nat) : List (List Char) :=
  if h : data = [] then []
  else mkLine addr (data.take 16) :: hexdumpLines (addr + 16) (data.drop 16)
termination_by data.length
decreasing_by
  simp only [List.length_drop]
  have : 0 < data.length := List.length_pos.mpr h
  omega

lemma hexStr_length_le : ∀ k n, n < 16 ^ (k + 1) → (hexStr n).length ≤ k + 1 := by
  intro k
  induction k with
  | zero =>
    intro n h
    rw [hexStr]
    have h16 : n < 16 := by simpa using h
    simp [h16]
  | succ k ih =>
    intro n h
    rw [hexStr]
    by_cases h16 : n < 16
    · simp [h16]
    · rw [if_neg h16]
      have hdiv : n / 16 < 16 ^ (k + 1) := by
        apply Nat.div_lt_of_lt_mul
        calc n < 16 ^ (k + 1 + 1) := h
        _ = 16 * 16 ^ (k + 1) := by ring
      have := ih (n / 16) hdiv
      simp only [List.length_append, List.length_cons, List.length_nil]
      omega

lemma offsetStr_length (n : Nat) (h : n < 65536) : (offsetStr n).length = 6 := by
  have h4 : (hexStr n).length ≤ 4 := hexStr_length_le 3 n (by omega)
  simp only [offsetStr, List.length_cons, List.length_append, List.length_replicate]
  omega

lemma joinSpace_length : ∀ ps : List (List Char), (∀ p ∈ ps, p.length = 2) → ps ≠ [] →
    (joinSpace ps).length = 3 * ps.length - 1
  | [x], h, _ => by
    simp [joinSpace, h x (by simp)]
  | x :: y :: xs, h, _ => by
    have ih := joinSpace_length (y :: xs) (fun p hp => h p (List.mem_cons_of_mem x hp))
      (by simp)
    simp only [joinSpace, List.length_append, List.length_cons, h x (by simp), ih,
      List.length_nil]
    omega

lemma mkLine_length (addr : Nat) (line : List Nat) (hne : line ≠ [])
    (hle : line.length ≤ 16) (haddr : addr < 65536) :
    (mkLine addr line).length = 58 + line.length := by
  have hj := joinSpace_length (line.map hex2)
    (by
      intro p hp
      obtain ⟨b, _, rfl⟩ := List.mem_map.mp hp
      rfl)
    (by simpa using hne)
  have hoff := offsetStr_length addr haddr
  have hpos : 0 < line.length := List.length_pos.mpr hne
  simp only [mkLine, List.length_append, hoff, hj, List.length_map,
    List.length_replicate, List.length_cons, List.length_nil]
  omega

lemma mkLine_drop55 (addr : Nat) (line : List Nat) (hne : line ≠ [])
    (hle : line.length ≤ 16) (haddr : addr < 65536) :
    (mkLine addr line).drop 55 = [' ', '|', ' '] ++ line.map printable := by
  have hj := joinSpace_length (line.map hex2)
    (by
      intro p hp
      obtain ⟨b, _, rfl⟩ := List.mem_map.mp hp
      rfl)
    (by simpa using hne)
  have hoff := offsetStr_length addr haddr
  have hpos : 0 < line.length := List.length_pos.mpr hne
  have hA : (offsetStr addr ++ [':', ' '] ++ joinSpace (line.map hex2)
      ++ List.replicate (3 * (16 - line.length)) ' ').length = 55 := by
    simp only [List.length_append, hoff, hj, List.length_map, List.length_replicate,
      List.length_cons, List.length_nil]
    omega
  have hsplit : mkLine addr line
      = (offsetStr addr ++ [':', ' '] ++ joinSpace (line.map hex2)
          ++ List.replicate (3 * (16 - line.length)) ' ')
        ++ ([' ', '|', ' '] ++ line.map printable) := by
    unfold mkLine
    simp [List.append_assoc]
  rw [hsplit, ← hA, List.drop_left]

lemma hexdumpLines_length_aux : ∀ (n : Nat) (data : List Nat) (addr : Nat),
    data.length ≤ n → (hexdumpLines addr data).length = (data.length + 15) / 16 := by
  intro n
  induction n with
  | zero =>
    intro data addr h
    have hnil : data = [] := List.length_eq_zero.mp (by omega)
    rw [hexdumpLines]
    simp [hnil]
  | succ n ih =>
    intro data addr h
    rw [hexdumpLines]
    by_cases hd : data = []
    · simp [hd]
    · rw [dif_neg hd]
      simp only [List.length_cons]
      rw [ih (data.drop 16) (addr + 16) (by simp only [List.length_drop]; omega)]
      have hpos : 0 < data.length := List.length_pos.mpr hd
      simp only [List.length_drop]
      omega

lemma hexdumpLines_getD : ∀ (i : Nat) (data : List Nat) (addr : Nat),
    i < (hexdumpLines addr data).length →
    (hexdumpLines addr data).getD i []
      = mkLine (addr + 16 * i) ((data.drop (16 * i)).take 16) := by
  intro i
  induction i with
  | zero =>
    intro data addr hi
    rw [hexdumpLines] at hi ⊢
    by_cases hd : data = []
    · rw [dif_pos hd] at hi
      simp at hi
    · rw [dif_neg hd] at hi ⊢
      simp
  | succ i ih =>
    intro data addr hi
    rw [hexdumpLines] at hi ⊢
    by_cases hd : data = []
    · rw [dif_pos hd] at hi
      simp at hi
    · rw [dif_neg hd] at hi ⊢
      simp only [List.getD_cons_succ]
      rw [ih (data.drop 16) (addr + 16) (by simpa using hi), List.drop_drop]
      have e1 : addr + 16 + 16 * i = addr + 16 * (i + 1) := by omega
      have e2 : 16 + 16 * i = 16 * (i + 1) := by omega
      rw [e1, e2]

/-- Claim C9: the dump emits one line per 16 bytes (a short final line for
the remainder), line `i` is formatted as `mkLine` at offset `16 * i` (offset
column, space-joined two-digit hex bytes, padding, ` | `, ASCII with
non-printable bytes as dots), every line of a dump of at most 65536 bytes
has its ` | ` ASCII separator at the same column 55, and a 20-byte buffer
produces exactly 2 lines. -/
theorem hexdump_spec (data : List Nat) :
    ((hexdumpLines 0 data).length = (data.length + 15) / 16)
    ∧ (∀ i, i < (hexdumpLines 0 data).length →
        (hexdumpLines 0 data).getD i [] = mkLine (16 * i) ((data.drop (16 * i)).take 16))
    ∧ (data.length ≤ 65536 →
        ∀ i, i < (hexdumpLines 0 data).length →
          ((hexdumpLines 0 data).getD i []).drop 55
            = [' ', '|', ' '] ++ ((data.drop (16 * i)).take 16).map printable
          ∧ ((hexdumpLines 0 data).getD i []).length
            = 58 + ((data.drop (16 * i)).take 16).length)
    ∧ (data.length = 20 → (hexdumpLines 0 data).length = 2) := by
  have hlen := hexdumpLines_length_aux data.length data 0 le_rfl
  have hgetD : ∀ i, i < (hexdumpLines 0 data).length →
      (hexdumpLines 0 data).getD i [] = mkLine (16 * i) ((data.drop (16 * i)).take 16) := by
    intro i hi
    have h := hexdumpLines_getD i data 0 hi
    rwa [Nat.zero_add] at h
  refine ⟨hlen, hgetD, ?_, ?_⟩
  · intro hle i hi
    have hcount : i < (data.length + 15) / 16 := by rw [← hlen]; exact hi
    have h16i : 16 * i < data.length := by omega
    have hne : (data.drop (16 * i)).take 16 ≠ [] := by
      rw [← List.length_pos]
      simp only [List.length_take, List.length_drop]
      omega
    have hlin : ((data.drop (16 * i)).take 16).length ≤ 16 := by
      simp only [List.length_take, List.length_drop]
      omega
    have haddr : 16 * i < 65536 := by omega
    rw [hgetD i hi]
    exact ⟨mkLine_drop55 _ _ hne hlin haddr, mkLine_length _ _ hne hlin haddr⟩
  · intro h20
    rw [hlen, h20]

/-- Witness for C9 on a concrete 20-byte buffer. -/
theorem hexdump_spec_witness :
    (List.replicate 20 (0 : Nat)).length = 20
    ∧ (hexdumpLines 0 (List.replicate 20 0)).length = 2 := by
  refine ⟨by decide, ?_⟩
  exact (hexdump_spec (List.replicate 20 0)).2.2.2 (by decide)
